import Mathlib

/-!
Shallow embedding of the voice-sdk streaming wake-word / transcription core.

Strings from the TypeScript source are modelled as `List Char`; the
floating-point similarity arithmetic is modelled over `ℚ` (the blending
weights 0.5/0.3/0.2, 0.55/0.45, 0.9/0.1 and the thresholds are exact
decimals); JavaScript timers are modelled as explicit expiry timestamps and
timer-fire events; `Date.now()` values are explicit `Nat` parameters.
The external pinyin transliteration library (pinyin-pro) is a parameter
`py : List Char → List Char` wherever the source consults it.
-/

namespace VoiceSDK

abbrev Str := List Char

/-! ## Normalization (VoskWakeWordDetector.toHalfWidth / normalizeChinese) -/

/-- Embedding of `toHalfWidth` applied characterwise: full-width forms
U+FF01..U+FF5E are shifted down by 0xFEE0, ideographic space U+3000 becomes
an ASCII space. -/
def toHalfWidthChar (c : Char) : Char :=
  if 0xFF01 ≤ c.toNat ∧ c.toNat ≤ 0xFF5E then Char.ofNat (c.toNat - 0xFEE0)
  else if c.toNat = 0x3000 then ' '
  else c

/-- JavaScript `\s` whitespace class (the members relevant to this code). -/
def isJsWhitespace (c : Char) : Bool :=
  c.toNat ∈ [0x20, 0x9, 0xA, 0xB, 0xC, 0xD, 0xA0, 0x1680, 0x2028, 0x2029,
              0x202F, 0x205F, 0x3000, 0xFEFF] ∨
  (0x2000 ≤ c.toNat ∧ c.toNat ≤ 0x200A)

/-- The punctuation character class removed by `normalizeChinese`
(ASCII part and the CJK punctuation listed in the source regex). -/
def punctChars : Str :=
  [Char.ofNat 0x60, '~', '!', '@', '#', '$', '%', Char.ofNat 0x5E, '&', '*',
   '(', ')', '-', '_', '=', '+', '[', ']', Char.ofNat 0x7B, Char.ofNat 0x7D,
   ';', ':', Char.ofNat 0x27, Char.ofNat 0x22, ',', '.', '<', '>', '/', '?',
   '、', '，', '。', '？', '！', '￥', '…', '（', '）', '【', '】', '《', '》',
   '·', '：', '；', '—']

/-- Filler particles stripped by `normalizeChinese`
(regex class `[啊呀呢吧嘛的了地得哦喔哈哎哟哇]`). -/
def fillerChars : Str :=
  ['啊', '呀', '呢', '吧', '嘛', '的', '了', '地', '得', '哦', '喔', '哈',
   '哎', '哟', '哇']

/-- Space separators matched by `\p{Z}` (third replace in the source). -/
def isSpaceSeparator (c : Char) : Bool :=
  c.toNat ∈ [0x20, 0xA0, 0x1680, 0x202F, 0x205F, 0x3000] ∨
  (0x2000 ≤ c.toNat ∧ c.toNat ≤ 0x200A)

/-- JavaScript `String.prototype.trim`. -/
def jsTrim (s : Str) : Str :=
  ((s.dropWhile isJsWhitespace).reverse.dropWhile isJsWhitespace).reverse

/-- Embedding of `VoskWakeWordDetector.normalizeChinese`: lower-case,
half-width fold, then the three removal passes and a trim. -/
def normalizeChinese (input : Str) : Str :=
  let s := (input.map Char.toLower).map toHalfWidthChar
  let s1 := s.filter (fun c => ¬ (isJsWhitespace c ∨ c ∈ punctChars))
  let s2 := s1.filter (fun c => c ∉ fillerChars)
  let s3 := s2.filter (fun c => ¬ isSpaceSeparator c)
  jsTrim s3

/-! ## Similarity scoring (levenshtein / lcsLen / jaccardBigrams / similarity) -/

/-- Embedding of `VoskWakeWordDetector.levenshtein`: the edit-distance
recurrence the source's rolling-row dynamic program computes
(`dp[j]+1` deletion, `dp[j-1]+1` insertion, `prev+cost` substitution). -/
def levenshtein : Str → Str → Nat
  | [], b => b.length
  | a, [] => a.length
  | x :: xs, y :: ys =>
    min (min (levenshtein xs (y :: ys) + 1) (levenshtein (x :: xs) ys + 1))
      (levenshtein xs ys + (if x = y then 0 else 1))
termination_by a b => a.length + b.length

/-- Embedding of `VoskWakeWordDetector.lcsLen`: the longest-common-subsequence
recurrence computed by the source's table (`dp[i-1][j-1]+1` on a match, else
`max (dp[i-1][j]) (dp[i][j-1])`). -/
def lcsLen : Str → Str → Nat
  | [], _ => 0
  | _, [] => 0
  | x :: xs, y :: ys =>
    if x = y then lcsLen xs ys + 1
    else max (lcsLen xs (y :: ys)) (lcsLen (x :: xs) ys)
termination_by a b => a.length + b.length

/-- The set of two-character substrings of `a` (the JS `Set` of
`a.slice(i, i+2)` values), as a finset of adjacent character pairs. -/
def bigrams (a : Str) : Finset (Char × Char) := (a.zip a.tail).toFinset

/-- Embedding of `VoskWakeWordDetector.jaccardBigrams`. -/
def jaccardBigrams (a b : Str) : ℚ :=
  let A := bigrams a
  let B := bigrams b
  if A.card = 0 ∨ B.card = 0 then 0
  else
    let inter := (A ∩ B).card
    let union := A.card + B.card - inter
    if 0 < union then (inter : ℚ) / (union : ℚ) else 0

/-- Embedding of `VoskWakeWordDetector.similarity`: blended edit-distance,
LCS-ratio and bigram-Jaccard score, clamped to `[0, 1]`; `0` when either
string is empty. -/
def similarity (a b : Str) : ℚ :=
  if a.length = 0 ∨ b.length = 0 then 0
  else
    let lev : ℚ := levenshtein a b
    let lcs : ℚ := lcsLen a b
    let maxLen : ℚ := max a.length b.length
    let levScore := 1 - lev / maxLen
    let lcsScore := lcs / maxLen
    let ngramScore := jaccardBigrams a b
    max 0 (min 1 (0.5 * levScore + 0.3 * lcsScore + 0.2 * ngramScore))

/-- Score of one sliding window `sub` against the phrase, including the
phonetic blending of `scoreCandidate`'s inner loop body; `py` is the
(externally supplied) pinyin transliteration used for `getPinyinCached`. -/
def combinedScore (py : Str → Str) (phraseNorm phrasePinyin sub : Str) : ℚ :=
  let s := similarity sub phraseNorm
  if 0 < phrasePinyin.length then
    let subPinyin := py sub
    if 0 < subPinyin.length then
      let pyScore := similarity subPinyin phrasePinyin
      if 0.9 ≤ pyScore then max s (pyScore * 0.9 + s * 0.1)
      else if 0.75 ≤ pyScore then max s (s * 0.55 + pyScore * 0.45)
      else s
    else s
  else s

/-- The `(win, i)` iteration space of `scoreCandidate`'s two nested loops:
window widths from `max 1 (targetLen - 3)` to `targetLen + 3`, start offsets
with `i + win ≤ candLen`, in source iteration order. -/
def windows (candLen targetLen : Nat) : List (Nat × Nat) :=
  let minLen := max 1 (targetLen - 3)
  let maxLen := targetLen + 3
  (List.range (maxLen + 1 - minLen)).flatMap (fun w =>
    (List.range (candLen + 1 - (minLen + w))).map (fun i => (minLen + w, i)))

/-- The running-maximum loop of `scoreCandidate`, including the early
return as soon as the running best reaches `0.999`. -/
def scoreLoop (py : Str → Str) (candidate phraseNorm phrasePinyin : Str) :
    List (Nat × Nat) → ℚ → ℚ
  | [], best => best
  | (win, i) :: rest, best =>
    let sub := (candidate.drop i).take win
    let c := combinedScore py phraseNorm phrasePinyin sub
    let best' := if best < c then c else best
    if 0.999 ≤ best' then best'
    else scoreLoop py candidate phraseNorm phrasePinyin rest best'

/-- Embedding of `VoskWakeWordDetector.scoreCandidate`. -/
def scoreCandidate (py : Str → Str) (candidate phraseNorm phrasePinyin : Str) : ℚ :=
  if candidate.length = 0 ∨ phraseNorm.length = 0 then 0
  else scoreLoop py candidate phraseNorm phrasePinyin
        (windows candidate.length phraseNorm.length) 0

/-- Predicate stating that `candidate` contains `phrase` as a contiguous
substring. -/
def hasSubstring (candidate phrase : Str) : Prop :=
  ∃ i, (candidate.drop i).take phrase.length = phrase

/-- Embedding of `VoskWakeWordDetector.computePinyinNormalized`; `lib` stands
for the external `pinyin-pro` conversion composed with the source's
post-cleanup (whitespace and non-alphanumeric removal, lower-casing), which
is only consulted when the normalized input contains CJK ideographs. -/
def computePinyinNormalized (lib : Str → Str) (input : Str) : Str :=
  if input = [] then []
  else
    let normalized := normalizeChinese input
    if normalized = [] then []
    else if normalized.any (fun c => 0x4E00 ≤ c.toNat ∧ c.toNat ≤ 0x9FFF) then
      lib normalized
    else normalized

/-! ## Wake matcher state machine (VoskWakeWordDetector.maybeWake / reset) -/

/-- Tuning constants of `VoskWakeWordDetector` (readonly fields). -/
def maxBufferLen : Nat := 48
def refractoryMs : Nat := 1500
def partialThreshold : ℚ := 0.72
def finalThreshold : ℚ := 0.82
def requiredConsecutivePartialHits : Nat := 2
def nearMissSlack : ℚ := 0.04
def requiredNearMissHits : Nat := 3

/-- Mutable matcher state of `VoskWakeWordDetector` (the fields read or
written by `maybeWake`, `reset`, `setWakeWords`). -/
structure MatcherState where
  phrases : List Str
  phrasesNorm : List Str
  phrasesPinyin : List Str
  triggered : Bool
  consecutiveHits : Nat
  nearMissHits : Nat
  partialBuffer : Str
  lastTriggerTs : Nat
  lastMaxAbs : ℚ
deriving Repr

/-- Embedding of `VoskWakeWordDetector.reset`. -/
def resetMatcher (s : MatcherState) : MatcherState :=
  { s with triggered := false, consecutiveHits := 0, partialBuffer := [],
           nearMissHits := 0, lastTriggerTs := 0 }

/-- JavaScript `String.prototype.slice(-n)`: the last `n` characters. -/
def takeLast (n : Nat) (l : Str) : Str := l.drop (l.length - n)

/-- The `maxScore` loop of `maybeWake`: running maximum of
`scoreCandidate` over the configured phrase list. -/
def computeMaxScore (py : Str → Str) (s : MatcherState) (candidate : Str) : ℚ :=
  (s.phrasesNorm.zip s.phrasesPinyin).foldl
    (fun m p => if m < scoreCandidate py candidate p.1 p.2
                then scoreCandidate py candidate p.1 p.2 else m) 0

/-- The loudness-adapted threshold of `maybeWake`
(`max 0.6 (base - adapt)` with up to `-0.04` of adaptation). -/
def effectiveThreshold (s : MatcherState) (isFinal : Bool) : ℚ :=
  let base := if isFinal then finalThreshold else partialThreshold
  let loud := min 1 (max 0 s.lastMaxAbs)
  let adapt := (if 0.2 ≤ loud then 0.02 else 0) + (if 0.35 ≤ loud then 0.02 else 0)
  max 0.6 (base - adapt)

/-- Embedding of `VoskWakeWordDetector.maybeWake`. Returns the new state and
whether the `onWake` callback fired. -/
def maybeWake (py : Str → Str) (s : MatcherState) (text : Str) (isFinal : Bool)
    (now : Nat) : MatcherState × Bool :=
  if s.phrases = [] then (s, false)
  else if s.triggered then (s, false)
  else if 0 < s.lastTriggerTs ∧ now - s.lastTriggerTs < refractoryMs then (s, false)
  else
    let normIncoming := normalizeChinese text
    let buffer := if isFinal then s.partialBuffer
                  else takeLast maxBufferLen (s.partialBuffer ++ normIncoming)
    let s1 := { s with partialBuffer := buffer }
    let candidate := if isFinal then normIncoming else buffer
    if candidate = [] then (s1, false)
    else
      let maxScore := computeMaxScore py s candidate
      let threshold := effectiveThreshold s isFinal
      if threshold ≤ maxScore then
        if isFinal then
          ({ s1 with triggered := true, lastTriggerTs := now }, true)
        else
          let ch := s.consecutiveHits + 1
          if requiredConsecutivePartialHits ≤ ch then
            ({ s1 with consecutiveHits := ch, triggered := true,
                       lastTriggerTs := now, nearMissHits := 0 }, true)
          else
            ({ s1 with consecutiveHits := ch, nearMissHits := 0 }, false)
      else if ¬ isFinal then
        if max 0 (threshold - nearMissSlack) ≤ maxScore then
          let nm := s.nearMissHits + 1
          if requiredNearMissHits ≤ nm then
            ({ s1 with nearMissHits := nm, triggered := true, lastTriggerTs := now,
                       consecutiveHits := s.consecutiveHits - 1 }, true)
          else
            ({ s1 with nearMissHits := nm,
                       consecutiveHits := s.consecutiveHits - 1 }, false)
        else
          ({ s1 with nearMissHits := s.nearMissHits - 1,
                     consecutiveHits := s.consecutiveHits - 1 }, false)
      else (s1, false)

/-- One recognizer text event: text, final flag, `Date.now()` at delivery. -/
structure TextEvent where
  text : Str
  isFinal : Bool
  now : Nat
deriving Repr

/-- Run the matcher over a list of text events, counting `onWake` firings. -/
def runMatcher (py : Str → Str) : MatcherState → List TextEvent → MatcherState × Nat
  | s, [] => (s, 0)
  | s, e :: es =>
    let r := maybeWake py s e.text e.isFinal e.now
    let rest := runMatcher py r.1 es
    (rest.1, (if r.2 then 1 else 0) + rest.2)

/-! ## SpeechTranscriberStandalone: session lifecycle and auto-stop timers -/

/-- Resolved auto-stop configuration (constructor defaults applied). -/
structure AutoStopConfig where
  enabled : Bool
  silenceTimeoutMs : Nat
  noSpeechTimeoutMs : Nat
  maxDurationMs : Nat
deriving Repr, DecidableEq

/-- A partial auto-stop configuration, as passed to `updateAutoStopConfig`. -/
structure AutoStopPatch where
  enabled : Option Bool := none
  silenceTimeoutMs : Option Nat := none
  noSpeechTimeoutMs : Option Nat := none
  maxDurationMs : Option Nat := none
deriving Repr

/-- Object-spread merge `{ ...autoStop, ...config }`. -/
def applyPatch (c : AutoStopConfig) (p : AutoStopPatch) : AutoStopConfig :=
  { enabled := p.enabled.getD c.enabled,
    silenceTimeoutMs := p.silenceTimeoutMs.getD c.silenceTimeoutMs,
    noSpeechTimeoutMs := p.noSpeechTimeoutMs.getD c.noSpeechTimeoutMs,
    maxDurationMs := p.maxDurationMs.getD c.maxDurationMs }

inductive TStatus where
  | idle | starting | active | processing | stopping
deriving Repr, DecidableEq

inductive AutoStopReason where
  | silence | noSpeech | maxDuration
deriving Repr, DecidableEq

/-- State of `SpeechTranscriberStandalone`. A pending `setTimeout` is
modelled as `some expiry` (the wall-clock time at which it may fire);
`maxDurationArms` is ghost instrumentation counting how many times the
max-duration timer has been armed. -/
structure TState where
  status : TStatus
  autoStop : AutoStopConfig
  silenceTimer : Option Nat
  noSpeechTimer : Option Nat
  maxDurationTimer : Option Nat
  lastSpeechTime : Nat
  sessionStartTime : Nat
  hasSpeechActivity : Bool
  maxDurationArms : Nat
deriving Repr

def clearAllTimers (s : TState) : TState :=
  { s with silenceTimer := none, noSpeechTimer := none, maxDurationTimer := none }

/-- Embedding of `resetSilenceTimer`: cancel, then re-arm only when the
timeout is positive and speech activity has been seen. -/
def resetSilenceTimer (s : TState) (now : Nat) : TState :=
  let s1 := { s with silenceTimer := none }
  if 0 < s1.autoStop.silenceTimeoutMs ∧ s1.hasSpeechActivity then
    { s1 with silenceTimer := some (now + s1.autoStop.silenceTimeoutMs) }
  else s1

/-- Embedding of `startAutoStopTimers`: arm the no-speech and max-duration
timers (when their timeouts are positive) and reset the silence timer. -/
def startAutoStopTimers (s : TState) (now : Nat) : TState :=
  let s1 := if 0 < s.autoStop.noSpeechTimeoutMs then
      { s with noSpeechTimer := some (now + s.autoStop.noSpeechTimeoutMs) }
    else s
  let s2 := if 0 < s1.autoStop.maxDurationMs then
      { s1 with maxDurationTimer := some (now + s1.autoStop.maxDurationMs),
                maxDurationArms := s1.maxDurationArms + 1 }
    else s1
  resetSilenceTimer s2 now

/-- Embedding of a successful `start()`: guarded on idle, resets the
per-session speech state and arms the auto-stop timers when enabled
(the external `transcriber.start()` is assumed to succeed). -/
def startSession (s : TState) (now : Nat) : TState :=
  if s.status ≠ TStatus.idle then s
  else
    let s1 := { s with status := TStatus.active, sessionStartTime := now,
                       lastSpeechTime := 0, hasSpeechActivity := false }
    if s1.autoStop.enabled then startAutoStopTimers s1 now else s1

/-- Embedding of `stop()`: no-op when idle or stopping, otherwise clears all
timers and returns to idle (the external `transcriber.stop()` succeeds). -/
def stopSession (s : TState) : TState :=
  if s.status = TStatus.idle ∨ s.status = TStatus.stopping then s
  else { clearAllTimers s with status := TStatus.idle }

/-- Embedding of `handleTranscriptionResult`. -/
def handleTranscriptionResult (s : TState) (transcript : Str) (isFinal : Bool)
    (now : Nat) : TState :=
  let hasContent := jsTrim transcript ≠ []
  let s1 := if hasContent then
      let a := { s with hasSpeechActivity := true, lastSpeechTime := now,
                        status := TStatus.processing, noSpeechTimer := none }
      if a.autoStop.enabled then resetSilenceTimer a now else a
    else s
  if isFinal ∧ s1.autoStop.enabled then resetSilenceTimer s1 now else s1

/-- Embedding of `updateAutoStopConfig`: merge the patch and, when the
session is active and auto-stop is enabled, clear and re-arm all timers. -/
def updateAutoStopConfig (s : TState) (p : AutoStopPatch) (now : Nat) : TState :=
  let s1 := { s with autoStop := applyPatch s.autoStop p }
  if (s1.status = TStatus.active ∨ s1.status = TStatus.processing) ∧
      s1.autoStop.enabled then
    startAutoStopTimers (clearAllTimers s1) now
  else s1

/-- The no-speech `setTimeout` callback firing at time `now` (one-shot: only
possible while the timer is armed and past its expiry; the callback emits
`no-speech` and stops only when no speech activity was ever observed). -/
def fireNoSpeech (s : TState) (now : Nat) : TState × List AutoStopReason :=
  match s.noSpeechTimer with
  | none => (s, [])
  | some t =>
    if t ≤ now then
      let s1 := { s with noSpeechTimer := none }
      if ¬ s1.hasSpeechActivity then (stopSession s1, [AutoStopReason.noSpeech])
      else (s1, [])
    else (s, [])

/-- The max-duration `setTimeout` callback firing at time `now`. -/
def fireMaxDuration (s : TState) (now : Nat) : TState × List AutoStopReason :=
  match s.maxDurationTimer with
  | none => (s, [])
  | some t =>
    if t ≤ now then
      let s1 := { s with maxDurationTimer := none }
      (stopSession s1, [AutoStopReason.maxDuration])
    else (s, [])

/-- The silence `setTimeout` callback firing at time `now`; it only stops the
session when the time since the last speech is at least the (current)
silence timeout. -/
def fireSilence (s : TState) (now : Nat) : TState × List AutoStopReason :=
  match s.silenceTimer with
  | none => (s, [])
  | some t =>
    if t ≤ now then
      let s1 := { s with silenceTimer := none }
      if s1.autoStop.silenceTimeoutMs ≤ now - s1.lastSpeechTime then
        (stopSession s1, [AutoStopReason.silence])
      else (s1, [])
    else (s, [])

/-- Events of the transcriber session state machine. -/
inductive TEvent where
  | start (now : Nat)
  | stop
  | result (transcript : Str) (isFinal : Bool) (now : Nat)
  | updateConfig (p : AutoStopPatch) (now : Nat)
  | silenceFired (now : Nat)
  | noSpeechFired (now : Nat)
  | maxDurationFired (now : Nat)
  | transcriberError

/-- One step of the session state machine, returning emitted auto-stop
reasons (the `onError` handler resets to idle and clears all timers). -/
def stepT (s : TState) : TEvent → TState × List AutoStopReason
  | TEvent.start now => (startSession s now, [])
  | TEvent.stop => (stopSession s, [])
  | TEvent.result t f now => (handleTranscriptionResult s t f now, [])
  | TEvent.updateConfig p now => (updateAutoStopConfig s p now, [])
  | TEvent.silenceFired now => fireSilence s now
  | TEvent.noSpeechFired now => fireNoSpeech s now
  | TEvent.maxDurationFired now => fireMaxDuration s now
  | TEvent.transcriberError => (clearAllTimers { s with status := TStatus.idle }, [])

/-- Run the session state machine, concatenating emitted auto-stop reasons. -/
def runT (s : TState) : List TEvent → TState × List AutoStopReason
  | [] => (s, [])
  | e :: es =>
    let r := stepT s e
    let rest := runT r.1 es
    (rest.1, r.2 ++ rest.2)

/-! ## WakeWordDetectorStandalone: auto-reset scheduling -/

/-- State of `WakeWordDetectorStandalone`. `autoResetTimer` is the stored
timer id (the class field); `pendingTimers` is the set of `setTimeout`
callbacks the runtime still holds outstanding, as `(id, expiry)` pairs;
`nextId` allocates fresh timer ids. -/
structure WState where
  det : MatcherState
  autoResetEnabled : Bool
  resetDelayMs : Nat
  isRunning : Bool
  autoResetTimer : Option Nat
  pendingTimers : List (Nat × Nat)
  nextId : Nat
deriving Repr

/-- Embedding of `clearAutoResetTimer`: `clearTimeout` removes the pending
runtime callback with the stored id and nulls the field. -/
def wClearTimer (s : WState) : WState :=
  match s.autoResetTimer with
  | none => s
  | some id =>
    { s with autoResetTimer := none,
             pendingTimers := s.pendingTimers.filter (fun p => p.1 ≠ id) }

/-- Embedding of `scheduleAutoReset`: cancel any pending timer, then arm a
fresh one-shot timer for `resetDelayMs` from now. -/
def wSchedule (s : WState) (now : Nat) : WState :=
  let s1 := wClearTimer s
  { s1 with autoResetTimer := some s1.nextId,
            pendingTimers := s1.pendingTimers ++ [(s1.nextId, now + s1.resetDelayMs)],
            nextId := s1.nextId + 1 }

/-- Embedding of `WakeWordDetectorStandalone.reset`: cancel the pending
auto-reset and reset the detector immediately. -/
def wReset (s : WState) : WState :=
  let s1 := wClearTimer s
  { s1 with det := resetMatcher s1.det }

/-- Embedding of `WakeWordDetectorStandalone.stop` (timer layer: cancels the
pending auto-reset; the audio teardown is external). -/
def wStop (s : WState) : WState :=
  if ¬ s.isRunning then s
  else { wClearTimer s with isRunning := false }

/-- A recognizer text event flowing through the inner detector; when the
detector fires, the standalone `onWake` handler schedules the auto-reset
(when enabled). -/
def wProcessText (py : Str → Str) (s : WState) (e : TextEvent) : WState :=
  let r := maybeWake py s.det e.text e.isFinal e.now
  let s1 := { s with det := r.1 }
  if r.2 ∧ s1.autoResetEnabled then wSchedule s1 e.now else s1

/-- A pending auto-reset `setTimeout` callback with id `id` firing at time
`now`: only possible while the runtime still holds it and it is past its
expiry; it resets the detector and nulls the timer field. -/
def wFire (s : WState) (id now : Nat) : WState :=
  match s.pendingTimers.find? (fun p => p.1 = id) with
  | none => s
  | some p =>
    if p.2 ≤ now then
      { s with det := resetMatcher s.det, autoResetTimer := none,
               pendingTimers := s.pendingTimers.filter (fun q => q.1 ≠ id) }
    else s

/-- Events of the standalone wake detector relevant to auto-reset. -/
inductive WEvent where
  | textEvt (e : TextEvent)
  | resetEvt
  | stopEvt
  | fireEvt (id now : Nat)

def wStep (py : Str → Str) (s : WState) : WEvent → WState
  | WEvent.textEvt e => wProcessText py s e
  | WEvent.resetEvt => wReset s
  | WEvent.stopEvt => wStop s
  | WEvent.fireEvt id now => wFire s id now

/-- Consistency between the stored timer-id field and the runtime's
outstanding auto-reset callbacks: ids are allocated below `nextId`, and the
outstanding list is empty or exactly the stored id's callback. -/
def WInv (s : WState) : Prop :=
  (∀ p ∈ s.pendingTimers, p.1 < s.nextId) ∧
  match s.autoResetTimer with
  | none => s.pendingTimers = []
  | some id => s.pendingTimers = [] ∨ ∃ e, s.pendingTimers = [(id, e)]

/-! ## RecorderManager: audio framing -/

/-- Cut `n` leading frames of `fs` elements each off `l` (the frame-emission
loop of `onaudioprocess`); returns the frames and the remainder. -/
def takeFrames (fs : Nat) : Nat → List α → List (List α) × List α
  | 0, l => ([], l)
  | n + 1, l =>
    let r := takeFrames fs n (l.drop fs)
    (l.take fs :: r.1, r.2)

/-- Embedding of the `onaudioprocess` buffering logic: append the chunk to
the buffered data, emit every complete `fs`-sized frame, keep the rest. -/
def processChunk (fs : Nat) (buf chunk : List α) : List α × List (List α) :=
  let concat := buf ++ chunk
  let frameCount := concat.length / fs
  if 1 ≤ frameCount then
    let r := takeFrames fs frameCount concat
    (r.2, r.1)
  else (concat, [])

/-- Feed a list of captured chunks through the recorder, collecting all
emitted (non-final) frames in order. -/
def runChunks (fs : Nat) : List α → List (List α) → List α × List (List α)
  | buf, [] => (buf, [])
  | buf, c :: cs =>
    let r := processChunk fs buf c
    let rest := runChunks fs r.1 cs
    (rest.1, r.2 ++ rest.2)

/-- Embedding of `RecorderManager.stop`'s final flush: the remaining buffer
is emitted as one `isLastFrame` frame, an explicit empty frame when nothing
is buffered. -/
def stopFlush (buf : List α) : List (Bool × List α) :=
  if buf.length > 0 then [(true, buf)] else [(true, [])]

/-- A whole recording session: frames delivered by `onFrameRecorded`,
tagged with their `isLastFrame` flag, for a given frame size and input
chunk sequence. -/
def recorderSession (fs : Nat) (chunks : List (List α)) : List (Bool × List α) :=
  let r := runChunks fs [] chunks
  (r.2.map (fun f => (false, f))) ++ stopFlush r.1

/-! ## IatTranscriber.start: connection guards and cooldown -/

inductive WsReadyState where
  | connecting | open | closing | closed
deriving Repr, DecidableEq

/-- The `IatTranscriber` fields read or written by `start()`'s guard and
reset section. -/
structure IatState where
  isSupported : Bool
  ws : Option WsReadyState
  connectingRef : Bool
  lastStartAt : Nat
  resultBuf : Str
  isSpeechRef : Bool
  speechSessionActive : Bool
  lastSpeechTime : Nat
deriving Repr

/-- Embedding of `IatTranscriber.start()` up to the creation of the new
`WebSocket` (wire protocol and callbacks are external): `.error` models the
synchronous throw, the `Bool` reports whether a new connection was created. -/
def iatStart (s : IatState) (now : Nat) : Except Unit (IatState × Bool) :=
  if ¬ s.isSupported then Except.error ()
  else if s.connectingRef then Except.ok (s, false)
  else if s.ws = some WsReadyState.open ∨ s.ws = some WsReadyState.connecting then
    Except.ok (s, false)
  else if now - s.lastStartAt < 1500 then Except.ok (s, false)
  else
    Except.ok ({ s with lastStartAt := now, resultBuf := [], isSpeechRef := false,
                        speechSessionActive := false, lastSpeechTime := 0,
                        ws := some WsReadyState.connecting, connectingRef := true },
               true)

def isStartEvent : TEvent → Bool
  | TEvent.start _ => true
  | _ => false

/-- The session events that are neither `start()` nor a runtime
reconfiguration of the auto-stop timeouts. -/
def nonArmingEvent : TEvent → Bool
  | TEvent.start _ => false
  | TEvent.updateConfig _ _ => false
  | _ => true

/-- The initial state of a freshly constructed `SpeechTranscriberStandalone`
with resolved auto-stop configuration `cfg`. -/
def tInit (cfg : AutoStopConfig) : TState :=
  ⟨TStatus.idle, cfg, none, none, none, 0, 0, false, 0⟩

/-- Clamp to the unit interval, as the spec describes it. -/
def clamp01 (x : ℚ) : ℚ := max 0 (min 1 x)

/-- The spec's similarity formula, written exactly as §4.2 states it:
`0.5*levScore + 0.3*lcsScore + 0.2*bigramScore` clamped to `[0,1]`. -/
def similaritySpec (a b : Str) : ℚ :=
  clamp01 (0.5 * (1 - (levenshtein a b : ℚ) / max (a.length : ℚ) (b.length : ℚ)) +
           0.3 * ((lcsLen a b : ℚ) / max (a.length : ℚ) (b.length : ℚ)) +
           0.2 * jaccardBigrams a b)

/-! ## Recorder framing lemmas -/

theorem takeFrames_flatten (fs n : Nat) (l : List α) :
    (takeFrames fs n l).1.flatten ++ (takeFrames fs n l).2 = l := by
  induction n generalizing l with
  | zero => simp [takeFrames]
  | succ k ih =>
    simp only [takeFrames, List.flatten_cons, List.append_assoc]
    rw [ih (l.drop fs), List.take_append_drop]

theorem takeFrames_length (fs n : Nat) (l : List α) (_hfs : 0 < fs)
    (h : n * fs ≤ l.length) : ∀ f ∈ (takeFrames fs n l).1, f.length = fs := by
  induction n generalizing l with
  | zero => simp [takeFrames]
  | succ k ih =>
    intro f hf
    simp only [takeFrames, List.mem_cons] at hf
    rcases hf with hf | hf
    · subst hf
      have hle : fs ≤ l.length := le_trans (Nat.le_add_left fs (k * fs)) (by
        simpa [Nat.succ_mul] using h)
      simp [List.length_take, Nat.min_eq_left hle]
    · have h' : k * fs + fs ≤ l.length := by
        rw [← Nat.succ_mul]
        exact h
      exact ih (l.drop fs) (by simp only [List.length_drop]; omega) f hf

theorem processChunk_flatten (fs : Nat) (buf chunk : List α) :
    (processChunk fs buf chunk).2.flatten ++ (processChunk fs buf chunk).1 =
      buf ++ chunk := by
  simp only [processChunk]
  split
  · exact takeFrames_flatten fs _ (buf ++ chunk)
  · simp

theorem processChunk_length (fs : Nat) (buf chunk : List α) (hfs : 0 < fs) :
    ∀ f ∈ (processChunk fs buf chunk).2, f.length = fs := by
  simp only [processChunk]
  split
  · exact takeFrames_length fs _ (buf ++ chunk) hfs (Nat.div_mul_le_self _ _)
  · simp

theorem runChunks_flatten (fs : Nat) (buf : List α) (cs : List (List α)) :
    (runChunks fs buf cs).2.flatten ++ (runChunks fs buf cs).1 =
      buf ++ cs.flatten := by
  induction cs generalizing buf with
  | nil => simp [runChunks]
  | cons c cs ih =>
    simp only [runChunks, List.flatten_cons, List.flatten_append, List.append_assoc]
    rw [ih (processChunk fs buf c).1, ← List.append_assoc,
      processChunk_flatten fs buf c, List.append_assoc]

theorem runChunks_length (fs : Nat) (buf : List α) (cs : List (List α))
    (hfs : 0 < fs) : ∀ f ∈ (runChunks fs buf cs).2, f.length = fs := by
  induction cs generalizing buf with
  | nil => simp [runChunks]
  | cons c cs ih =>
    intro f hf
    simp only [runChunks, List.mem_append] at hf
    rcases hf with hf | hf
    · exact processChunk_length fs buf c hfs f hf
    · exact ih (processChunk fs buf c).1 f hf

theorem stopFlush_eq (buf : List α) : stopFlush buf = [(true, buf)] := by
  unfold stopFlush
  split
  · rfl
  · simp_all [List.length_eq_zero]

/-- C8: audio framing. For every sequence of variable-size input chunks and
a positive frame size, every frame delivered with `isLastFrame = false` has
exactly `fs` elements, the delivered frames concatenate (in order, nothing
dropped or reordered) with the buffered remainder to the concatenated
input, and `stop()` delivers that remainder as a single final frame tagged
`isLastFrame = true`. -/
theorem recorder_framing (α : Type) (fs : Nat) (chunks : List (List α))
    (hfs : 0 < fs) :
    (∀ f ∈ (runChunks fs ([] : List α) chunks).2, f.length = fs) ∧
    (runChunks fs ([] : List α) chunks).2.flatten ++
        (runChunks fs ([] : List α) chunks).1 = chunks.flatten ∧
    recorderSession fs chunks =
      ((runChunks fs ([] : List α) chunks).2.map (fun f => (false, f))) ++
        [(true, (runChunks fs ([] : List α) chunks).1)] := by
  refine ⟨runChunks_length fs [] chunks hfs, ?_, ?_⟩
  · simpa using runChunks_flatten fs [] chunks
  · simp only [recorderSession]
    rw [stopFlush_eq]

/-- Witness for C8 at frame size 2 with one 3-element chunk. -/
theorem recorder_framing_witness :
    (∀ f ∈ (runChunks 2 ([] : List Nat) [[0, 1, 2]]).2, f.length = 2) ∧
    (runChunks 2 ([] : List Nat) [[0, 1, 2]]).2.flatten ++
        (runChunks 2 ([] : List Nat) [[0, 1, 2]]).1 = [[0, 1, 2]].flatten ∧
    recorderSession 2 [[0, 1, 2]] =
      ((runChunks 2 ([] : List Nat) [[0, 1, 2]]).2.map (fun f => (false, f))) ++
        [(true, (runChunks 2 ([] : List Nat) [[0, 1, 2]]).1)] :=
  recorder_framing Nat 2 [[0, 1, 2]] (by decide)

/-- C10: `RecorderManager.stop()` always delivers exactly one frame tagged
`isLastFrame = true`; it is the last delivery of the session and carries the
buffered remainder, which is the empty buffer (byte length 0) when nothing
remains — the callback is never skipped. -/
theorem recorder_final_frame (α : Type) (fs : Nat) (chunks : List (List α)) :
    ((recorderSession fs chunks).filter (fun p => p.1)).length = 1 ∧
    (recorderSession fs chunks).getLast? =
      some (true, (runChunks fs ([] : List α) chunks).1) := by
  simp only [recorderSession]
  rw [stopFlush_eq]
  constructor
  · simp [List.filter_append, List.filter_map]
  · simp

/-! ## IatTranscriber.start lemmas -/

/-- C9: implicit start cooldown. If `start()` is called in a supported
environment while the existing WebSocket is OPEN or CONNECTING, or less than
1500 ms after the previous accepted `start()`, the call returns immediately:
no connection is created (`false`), no field of the state — including the
accumulated `resultBuf` — is modified, and no error is thrown. -/
theorem iat_start_cooldown (s : IatState) (now : Nat)
    (hsup : s.isSupported = true)
    (h : (s.ws = some WsReadyState.open ∨ s.ws = some WsReadyState.connecting) ∨
         now - s.lastStartAt < 1500) :
    iatStart s now = Except.ok (s, false) := by
  unfold iatStart
  rw [if_neg (by simp [hsup])]
  split_ifs with h1 h2 h3
  · rfl
  · rfl
  · rfl
  · rcases h with hws | hcool
    · exact absurd hws h2
    · exact absurd hcool h3

/-- Witness for C9: a supported, open-socket state is left untouched. -/
theorem iat_start_cooldown_witness :
    iatStart
      { isSupported := true, ws := some WsReadyState.open, connectingRef := false,
        lastStartAt := 10000, resultBuf := ['a'], isSpeechRef := true,
        speechSessionActive := true, lastSpeechTime := 9000 } 10100 =
      Except.ok
        ({ isSupported := true, ws := some WsReadyState.open, connectingRef := false,
           lastStartAt := 10000, resultBuf := ['a'], isSpeechRef := true,
           speechSessionActive := true, lastSpeechTime := 9000 }, false) :=
  iat_start_cooldown _ 10100 rfl (Or.inl (Or.inl rfl))

/-! ## Similarity formula (C7) -/

/-- C7: for all strings `a` and `b`, `similarity` computes the spec formula
(Levenshtein, LCS and bigram-Jaccard blend, clamped to `[0,1]`), and returns
`0` whenever either string is empty. -/
theorem similarity_matches_spec (a b : Str) :
    (a ≠ [] → b ≠ [] → similarity a b = similaritySpec a b) ∧
    ((a = [] ∨ b = []) → similarity a b = 0) := by
  constructor
  · intro ha hb
    have h1 : ¬ (a.length = 0 ∨ b.length = 0) := by
      push_neg
      exact ⟨fun h => ha (List.length_eq_zero.mp h),
             fun h => hb (List.length_eq_zero.mp h)⟩
    simp only [similarity, similaritySpec, clamp01, if_neg h1]
  · rintro (rfl | rfl) <;> simp [similarity]

/-- Witness for C7 on the one-character strings `a` and `b`. -/
theorem similarity_matches_spec_witness :
    similarity ['a'] ['b'] = similaritySpec ['a'] ['b'] :=
  (similarity_matches_spec ['a'] ['b']).1 (by decide) (by decide)

/-! ## Auto-reset scheduling lemmas (C6) -/

theorem wClearTimer_cleared (s : WState) (h : WInv s) :
    (wClearTimer s).pendingTimers = [] ∧ (wClearTimer s).autoResetTimer = none := by
  obtain ⟨_, hm⟩ := h
  unfold wClearTimer
  cases hat : s.autoResetTimer with
  | none =>
    rw [hat] at hm
    exact ⟨hm, hat⟩
  | some id =>
    rw [hat] at hm
    rcases hm with hm | ⟨e, hm⟩ <;> simp [hm]

theorem wClearTimer_det (s : WState) : (wClearTimer s).det = s.det := by
  unfold wClearTimer
  cases s.autoResetTimer <;> rfl

theorem wClearTimer_nextId (s : WState) : (wClearTimer s).nextId = s.nextId := by
  unfold wClearTimer
  cases s.autoResetTimer <;> rfl

theorem WInv_of_cleared (s : WState) (hp : s.pendingTimers = [])
    (hf : s.autoResetTimer = none) : WInv s := by
  refine ⟨fun p hmem => ?_, ?_⟩
  · rw [hp] at hmem
    exact absurd hmem (List.not_mem_nil p)
  · rw [hf, hp]

theorem WInv_clear (s : WState) (h : WInv s) : WInv (wClearTimer s) :=
  WInv_of_cleared _ (wClearTimer_cleared s h).1 (wClearTimer_cleared s h).2

theorem WInv_len (s : WState) (h : WInv s) : s.pendingTimers.length ≤ 1 := by
  obtain ⟨_, hm⟩ := h
  cases hat : s.autoResetTimer with
  | none => rw [hat] at hm; simp [hm]
  | some id =>
    rw [hat] at hm
    rcases hm with hm | ⟨e, hm⟩ <;> simp [hm]

theorem WInv_schedule (s : WState) (h : WInv s) (now : Nat) :
    WInv (wSchedule s now) := by
  obtain ⟨hp, hf⟩ := wClearTimer_cleared s h
  refine ⟨fun p hmem => ?_, ?_⟩
  · simp only [wSchedule, hp, List.nil_append, List.mem_singleton] at hmem
    simp [wSchedule, hmem]
  · simp [wSchedule, hp]

theorem wFire_filtered (s : WState) (id now : Nat) (p : Nat × Nat)
    (hfind : s.pendingTimers.find? (fun q => q.1 = id) = some p)
    (hexp : p.2 ≤ now) :
    wFire s id now =
      { s with det := resetMatcher s.det, autoResetTimer := none,
               pendingTimers := s.pendingTimers.filter (fun q => q.1 ≠ id) } := by
  unfold wFire
  simp only [hfind]
  rw [if_pos hexp]

theorem wFire_pending_nil (s : WState) (h : WInv s) (id now : Nat) :
    (wFire s id now).pendingTimers = [] ∨ wFire s id now = s := by
  obtain ⟨hb, hm⟩ := h
  cases hfind : s.pendingTimers.find? (fun q => q.1 = id) with
  | none =>
    right
    unfold wFire
    simp only [hfind]
  | some p =>
    by_cases hexp : p.2 ≤ now
    · left
      rw [wFire_filtered s id now p hfind hexp]
      have hmem := List.mem_of_find?_eq_some hfind
      have hid : p.1 = id := by simpa using List.find?_some hfind
      cases hat : s.autoResetTimer with
      | none =>
        rw [hat] at hm
        rw [hm] at hmem
        exact absurd hmem (List.not_mem_nil p)
      | some fid =>
        rw [hat] at hm
        rcases hm with hm | ⟨e, hm⟩
        · rw [hm] at hmem
          exact absurd hmem (List.not_mem_nil p)
        · rw [hm] at hmem
          simp only [List.mem_singleton] at hmem
          simp [hm, ← hid, hmem]
    · right
      unfold wFire
      simp only [hfind]
      rw [if_neg hexp]

theorem WInv_fire (s : WState) (h : WInv s) (id now : Nat) :
    WInv (wFire s id now) := by
  rcases wFire_pending_nil s h id now with hnil | heq
  · cases hfind : s.pendingTimers.find? (fun q => q.1 = id) with
    | none =>
      have : wFire s id now = s := by
        unfold wFire
        simp only [hfind]
      rw [this]
      exact h
    | some p =>
      by_cases hexp : p.2 ≤ now
      · rw [wFire_filtered s id now p hfind hexp] at hnil ⊢
        exact WInv_of_cleared _ hnil rfl
      · have : wFire s id now = s := by
          unfold wFire
          simp only [hfind]
          rw [if_neg hexp]
        rw [this]
        exact h
  · rw [heq]
    exact h

theorem WInv_step (py : Str → Str) (s : WState) (e : WEvent) (h : WInv s) :
    WInv (wStep py s e) := by
  cases e with
  | textEvt ev =>
    simp only [wStep, wProcessText]
    split
    · exact WInv_schedule
        { s with det := (maybeWake py s.det ev.text ev.isFinal ev.now).1 }
        ⟨h.1, h.2⟩ ev.now
    · exact ⟨h.1, h.2⟩
  | resetEvt =>
    have hc := wClearTimer_cleared s h
    exact WInv_of_cleared _ (by simp [wStep, wReset, hc.1]) (by simp [wStep, wReset, hc.2])
  | stopEvt =>
    simp only [wStep, wStop]
    split
    · exact h
    · have hc := wClearTimer_cleared s h
      exact WInv_of_cleared _ (by simp [hc.1]) (by simp [hc.2])
  | fireEvt id now => exact WInv_fire s h id now

theorem wReset_props (s : WState) (h : WInv s) :
    (wReset s).det.triggered = false ∧ (wReset s).pendingTimers = [] := by
  have hc := wClearTimer_cleared s h
  exact ⟨by simp [wReset, resetMatcher], by simp [wReset, hc.1]⟩

/-- C6: auto-reset cancellation. Under the timer-consistency invariant
`WInv`: every event preserves the invariant and leaves at most one
outstanding auto-reset timer; and `reset()` while a timer is pending clears
the detector's `triggered` flag immediately, empties the outstanding timer
set, and any later attempt of the scheduled callback to fire is a no-op
(no double reset). -/
theorem auto_reset_single_timer (py : Str → Str) :
    (∀ (s : WState) (e : WEvent), WInv s →
       WInv (wStep py s e) ∧ (wStep py s e).pendingTimers.length ≤ 1) ∧
    (∀ s : WState, WInv s →
       (wReset s).det.triggered = false ∧ (wReset s).pendingTimers = [] ∧
       ∀ id now, wFire (wReset s) id now = wReset s) := by
  refine ⟨fun s e h => ⟨WInv_step py s e h, WInv_len _ (WInv_step py s e h)⟩,
          fun s h => ⟨(wReset_props s h).1, (wReset_props s h).2, fun id now => ?_⟩⟩
  unfold wFire
  rw [(wReset_props s h).2]
  rfl

/-- Witness for C6 on a concrete wake-triggered state with one pending
auto-reset timer. -/
theorem auto_reset_single_timer_witness :
    (wReset ⟨⟨[['h']], [['h']], [['h']], true, 2, 0, [], 100, 0⟩, true, 2000,
             true, some 1, [(1, 2100)], 2⟩).det.triggered = false ∧
    (wReset ⟨⟨[['h']], [['h']], [['h']], true, 2, 0, [], 100, 0⟩, true, 2000,
             true, some 1, [(1, 2100)], 2⟩).pendingTimers = [] :=
  ⟨((auto_reset_single_timer (fun l => l)).2 _
      ⟨by intro p hp; simp at hp; simp [hp], Or.inr ⟨2100, rfl⟩⟩).1,
   ((auto_reset_single_timer (fun l => l)).2 _
      ⟨by intro p hp; simp at hp; simp [hp], Or.inr ⟨2100, rfl⟩⟩).2.1⟩

/-! ## Wake matcher refractory behaviour (C2, C4) -/

theorem maybeWake_of_triggered (py : Str → Str) (s : MatcherState) (t : Str)
    (f : Bool) (now : Nat) (h : s.triggered = true) :
    maybeWake py s t f now = (s, false) := by
  simp [maybeWake, h]

theorem maybeWake_fire_triggered (py : Str → Str) (s : MatcherState) (t : Str)
    (f : Bool) (now : Nat) :
    (maybeWake py s t f now).2 = true → (maybeWake py s t f now).1.triggered = true := by
  simp only [maybeWake]
  split_ifs <;> simp

theorem runMatcher_of_triggered (py : Str → Str) (evs : List TextEvent) :
    ∀ s : MatcherState, s.triggered = true → (runMatcher py s evs).2 = 0 := by
  induction evs with
  | nil => intro s _; rfl
  | cons e es ih =>
    intro s h
    simp only [runMatcher, maybeWake_of_triggered py s e.text e.isFinal e.now h]
    simpa using ih s h

theorem runMatcher_le_one (py : Str → Str) (evs : List TextEvent) :
    ∀ s : MatcherState, (runMatcher py s evs).2 ≤ 1 := by
  induction evs with
  | nil => intro s; simp [runMatcher]
  | cons e es ih =>
    intro s
    simp only [runMatcher]
    cases hb : (maybeWake py s e.text e.isFinal e.now).2 with
    | false => simpa [hb] using ih (maybeWake py s e.text e.isFinal e.now).1
    | true =>
      have ht := maybeWake_fire_triggered py s e.text e.isFinal e.now hb
      simp [hb, runMatcher_of_triggered py es _ ht]

/-- C2: refractory invariant. Once `triggered` is true, `maybeWake` leaves
the state untouched and fires no wake callback; consequently, starting from
any `reset()` state, an arbitrary sequence of recognizer text events
produces at most one wake callback before the next reset. -/
theorem wake_refractory (py : Str → Str) :
    (∀ (s : MatcherState) (t : Str) (f : Bool) (now : Nat),
       s.triggered = true → maybeWake py s t f now = (s, false)) ∧
    (∀ (s : MatcherState) (evs : List TextEvent),
       (runMatcher py (resetMatcher s) evs).2 ≤ 1) :=
  ⟨fun s t f now h => maybeWake_of_triggered py s t f now h,
   fun s evs => runMatcher_le_one py evs (resetMatcher s)⟩

/-- Witness for C2: a concrete already-triggered matcher state ignores a
further partial event, and a run from its reset ends with at most one wake. -/
theorem wake_refractory_witness :
    maybeWake (fun l => l)
      ⟨[['h', 'i']], [['h', 'i']], [['h', 'i']], true, 2, 0, ['h'], 100, 0⟩
      ['h', 'i'] false 200 =
      (⟨[['h', 'i']], [['h', 'i']], [['h', 'i']], true, 2, 0, ['h'], 100, 0⟩,
       false) ∧
    (runMatcher (fun l => l)
      (resetMatcher
        ⟨[['h', 'i']], [['h', 'i']], [['h', 'i']], true, 2, 0, ['h'], 100, 0⟩)
      [⟨['h', 'i'], true, 300⟩]).2 ≤ 1 :=
  ⟨(wake_refractory (fun l => l)).1 _ _ _ _ rfl,
   (wake_refractory (fun l => l)).2 _ _⟩

/-! ## Session timers: no-speech race freedom (C5) and max-duration arming (C3) -/

@[simp] theorem stopSession_speech (s : TState) :
    (stopSession s).hasSpeechActivity = s.hasSpeechActivity := by
  simp only [stopSession, clearAllTimers]
  split <;> rfl

@[simp] theorem stopSession_arms (s : TState) :
    (stopSession s).maxDurationArms = s.maxDurationArms := by
  simp only [stopSession, clearAllTimers]
  split <;> rfl

@[simp] theorem resetSilenceTimer_speech (s : TState) (now : Nat) :
    (resetSilenceTimer s now).hasSpeechActivity = s.hasSpeechActivity := by
  simp only [resetSilenceTimer]
  split <;> rfl

@[simp] theorem resetSilenceTimer_arms (s : TState) (now : Nat) :
    (resetSilenceTimer s now).maxDurationArms = s.maxDurationArms := by
  simp only [resetSilenceTimer]
  split <;> rfl

@[simp] theorem resetSilenceTimer_maxTimer (s : TState) (now : Nat) :
    (resetSilenceTimer s now).maxDurationTimer = s.maxDurationTimer := by
  simp only [resetSilenceTimer]
  split <;> rfl

@[simp] theorem startAutoStopTimers_speech (s : TState) (now : Nat) :
    (startAutoStopTimers s now).hasSpeechActivity = s.hasSpeechActivity := by
  simp only [startAutoStopTimers, resetSilenceTimer_speech]
  split <;> split <;> rfl

theorem startAutoStopTimers_arms (s : TState) (now : Nat)
    (h : 0 < s.autoStop.maxDurationMs) :
    (startAutoStopTimers s now).maxDurationArms = s.maxDurationArms + 1 ∧
    (startAutoStopTimers s now).maxDurationTimer =
      some (now + s.autoStop.maxDurationMs) := by
  simp only [startAutoStopTimers, resetSilenceTimer_arms, resetSilenceTimer_maxTimer]
  split <;> simp [if_pos h]

theorem step_preserves_speech (s : TState) (e : TEvent)
    (he : isStartEvent e = false) (h : s.hasSpeechActivity = true) :
    (stepT s e).1.hasSpeechActivity = true := by
  cases e with
  | start now => simp [isStartEvent] at he
  | stop => simpa [stepT] using h
  | transcriberError => simpa [stepT, clearAllTimers] using h
  | result t f now =>
    simp only [stepT, handleTranscriptionResult]
    split_ifs <;> simp [h]
  | updateConfig p now =>
    simp only [stepT, updateAutoStopConfig]
    split_ifs <;> simp [clearAllTimers, h]
  | silenceFired now =>
    simp only [stepT, fireSilence]
    cases hM : s.silenceTimer with
    | none => simp [hM, h]
    | some t =>
      simp only [hM]
      split_ifs <;> simp_all
  | noSpeechFired now =>
    simp only [stepT, fireNoSpeech]
    cases hM : s.noSpeechTimer with
    | none => simp [hM, h]
    | some t =>
      simp only [hM]
      split_ifs <;> simp_all
  | maxDurationFired now =>
    simp only [stepT, fireMaxDuration]
    cases hM : s.maxDurationTimer with
    | none => simp [hM, h]
    | some t =>
      simp only [hM]
      split_ifs <;> simp_all

theorem step_no_noSpeech (s : TState) (e : TEvent)
    (h : s.hasSpeechActivity = true) :
    AutoStopReason.noSpeech ∉ (stepT s e).2 := by
  cases e with
  | start now => simp [stepT]
  | stop => simp [stepT]
  | transcriberError => simp [stepT]
  | result t f now => simp [stepT]
  | updateConfig p now => simp [stepT]
  | silenceFired now =>
    simp only [stepT, fireSilence]
    cases hM : s.silenceTimer with
    | none => simp [hM]
    | some t =>
      simp only [hM]
      split_ifs <;> simp_all
  | noSpeechFired now =>
    simp only [stepT, fireNoSpeech]
    cases hM : s.noSpeechTimer with
    | none => simp [hM]
    | some t =>
      simp only [hM]
      split_ifs <;> simp_all
  | maxDurationFired now =>
    simp only [stepT, fireMaxDuration]
    cases hM : s.maxDurationTimer with
    | none => simp [hM]
    | some t =>
      simp only [hM]
      split_ifs <;> simp_all

theorem runT_no_noSpeech (evs : List TEvent) :
    ∀ s : TState, s.hasSpeechActivity = true →
      (∀ e ∈ evs, isStartEvent e = false) →
      AutoStopReason.noSpeech ∉ (runT s evs).2 := by
  induction evs with
  | nil => intro s _ _; simp [runT]
  | cons e es ih =>
    intro s h hall
    simp only [runT, List.mem_append]
    push_neg
    refine ⟨step_no_noSpeech s e h, ?_⟩
    exact ih (stepT s e).1
      (step_preserves_speech s e (hall e (List.mem_cons_self e es)) h)
      (fun e' he' => hall e' (List.mem_cons_of_mem e he'))

/-- C5: no-speech race freedom. Delivering a transcript event with
non-empty trimmed content marks speech activity (and itself emits no
auto-stop reason), and from any state in which speech activity has been
observed, no later event of the same session (any sequence of events that
does not contain a new `start`) can emit the auto-stop reason `no-speech`. -/
theorem no_speech_race_freedom :
    (∀ (s : TState) (t : Str) (f : Bool) (now : Nat), jsTrim t ≠ [] →
       (stepT s (TEvent.result t f now)).1.hasSpeechActivity = true ∧
       (stepT s (TEvent.result t f now)).2 = []) ∧
    (∀ (s : TState) (evs : List TEvent), s.hasSpeechActivity = true →
       (∀ e ∈ evs, isStartEvent e = false) →
       AutoStopReason.noSpeech ∉ (runT s evs).2) := by
  constructor
  · intro s t f now hc
    refine ⟨?_, rfl⟩
    simp only [stepT, handleTranscriptionResult, if_pos hc]
    split_ifs <;> simp
  · intro s evs h hall
    exact runT_no_noSpeech evs s h hall

/-- Witness for C5: a content-bearing transcript event at 1000 ms marks
speech activity, and later timer firings emit no `no-speech`. -/
theorem no_speech_race_freedom_witness :
    (stepT ⟨TStatus.active, ⟨true, 2000, 5000, 60000⟩, none, some 5000,
            some 60000, 0, 0, false, 1⟩
        (TEvent.result ['h', 'i'] false 1000)).1.hasSpeechActivity = true ∧
    AutoStopReason.noSpeech ∉
      (runT ⟨TStatus.processing, ⟨true, 2000, 5000, 60000⟩, some 3000, none,
             some 60000, 1000, 0, true, 1⟩
        [TEvent.noSpeechFired 5000, TEvent.silenceFired 3000]).2 :=
  ⟨((no_speech_race_freedom).1 _ ['h', 'i'] false 1000 (by decide)).1,
   (no_speech_race_freedom).2 _ _ rfl (by
     intro e he
     simp only [List.mem_cons, List.not_mem_nil, or_false] at he
     rcases he with rfl | rfl <;> rfl)⟩

/-- C3 counterexample: within a single session (the status never returns to
idle), a runtime `updateAutoStopConfig` call — here with an empty patch —
re-arms the max-duration timer: it is armed a second time and its deadline
moves from 60000 to 60100, contradicting "armed exactly once at session
start and never rearmed by any later event of the session, including
runtime reconfiguration". -/
theorem max_duration_rearm_counterexample :
    (runT (tInit ⟨true, 3000, 5000, 60000⟩)
        [TEvent.start 0, TEvent.updateConfig {} 100]).1.maxDurationArms = 2 ∧
    (runT (tInit ⟨true, 3000, 5000, 60000⟩)
        [TEvent.start 0, TEvent.updateConfig {} 100]).1.maxDurationTimer =
      some 60100 ∧
    (runT (tInit ⟨true, 3000, 5000, 60000⟩)
        [TEvent.start 0, TEvent.updateConfig {} 100]).1.status =
      TStatus.active := by
  refine ⟨?_, ?_, ?_⟩ <;> rfl

/-- C3 (amended): the max-duration deadline is armed exactly once at session
start and is never rearmed by transcript activity, timer firings, `stop()`
or transcriber errors; however, `updateAutoStopConfig` while the session is
active (or processing) with auto-stop enabled cancels and re-arms it
relative to now with the newly configured duration. -/
theorem max_duration_armed_once_amended :
    (∀ (s : TState) (e : TEvent), nonArmingEvent e = true →
       (stepT s e).1.maxDurationArms = s.maxDurationArms) ∧
    (∀ (s : TState) (now : Nat), s.status = TStatus.idle →
       s.autoStop.enabled = true → 0 < s.autoStop.maxDurationMs →
       (stepT s (TEvent.start now)).1.maxDurationArms = s.maxDurationArms + 1 ∧
       (stepT s (TEvent.start now)).1.maxDurationTimer =
         some (now + s.autoStop.maxDurationMs)) ∧
    (∀ (s : TState) (p : AutoStopPatch) (now : Nat),
       (s.status = TStatus.active ∨ s.status = TStatus.processing) →
       (applyPatch s.autoStop p).enabled = true →
       0 < (applyPatch s.autoStop p).maxDurationMs →
       (stepT s (TEvent.updateConfig p now)).1.maxDurationArms =
         s.maxDurationArms + 1 ∧
       (stepT s (TEvent.updateConfig p now)).1.maxDurationTimer =
         some (now + (applyPatch s.autoStop p).maxDurationMs)) := by
  refine ⟨?_, ?_, ?_⟩
  · intro s e he
    cases e with
    | start now => simp [nonArmingEvent] at he
    | updateConfig p now => simp [nonArmingEvent] at he
    | stop => simp [stepT]
    | result t f now =>
      simp only [stepT, handleTranscriptionResult]
      split_ifs <;> simp
    | silenceFired now =>
      simp only [stepT, fireSilence]
      cases hM : s.silenceTimer with
      | none => simp [hM]
      | some t =>
        simp only [hM]
        split_ifs <;> simp_all
    | noSpeechFired now =>
      simp only [stepT, fireNoSpeech]
      cases hM : s.noSpeechTimer with
      | none => simp [hM]
      | some t =>
        simp only [hM]
        split_ifs <;> simp_all
    | maxDurationFired now =>
      simp only [stepT, fireMaxDuration]
      cases hM : s.maxDurationTimer with
      | none => simp [hM]
      | some t =>
        simp only [hM]
        split_ifs <;> simp_all
    | transcriberError => simp [stepT, clearAllTimers]
  · intro s now hidle hen hpos
    have hne : ¬ s.status ≠ TStatus.idle := by simp [hidle]
    simp only [stepT, startSession, if_neg hne, hen, if_true]
    exact startAutoStopTimers_arms _ now hpos
  · intro s p now hact hen hpos
    simp only [stepT, updateAutoStopConfig]
    rw [if_pos ⟨by simpa using hact, hen⟩]
    exact startAutoStopTimers_arms _ now hpos

/-- Witness for C3 (amended): concrete instances of the non-arming and the
session-start parts. -/
theorem max_duration_armed_once_amended_witness :
    (stepT ⟨TStatus.processing, ⟨true, 3000, 5000, 60000⟩, some 4000, none,
            some 60000, 1000, 0, true, 1⟩
        (TEvent.result ['h'] true 2000)).1.maxDurationArms = 1 ∧
    (stepT (tInit ⟨true, 3000, 5000, 60000⟩)
        (TEvent.start 0)).1.maxDurationArms = 0 + 1 :=
  ⟨(max_duration_armed_once_amended).1 _ (TEvent.result ['h'] true 2000) rfl,
   ((max_duration_armed_once_amended).2.1 (tInit ⟨true, 3000, 5000, 60000⟩)
      0 rfl rfl (by decide)).1⟩

/-! ## Similarity bounds and exact-match lemmas (C1) -/

theorem jaccardBigrams_nonneg (a b : Str) : 0 ≤ jaccardBigrams a b := by
  simp only [jaccardBigrams]
  split_ifs
  · exact le_refl 0
  · positivity
  · exact le_refl 0

theorem jaccardBigrams_le_one (a b : Str) : jaccardBigrams a b ≤ 1 := by
  simp only [jaccardBigrams]
  split_ifs with h1 h2
  · norm_num
  · rw [div_le_one (by exact_mod_cast h2)]
    have hA : ((bigrams a) ∩ (bigrams b)).card ≤ (bigrams a).card :=
      Finset.card_le_card Finset.inter_subset_left
    have hB : ((bigrams a) ∩ (bigrams b)).card ≤ (bigrams b).card :=
      Finset.card_le_card Finset.inter_subset_right
    exact_mod_cast by omega
  · norm_num

theorem similarity_nonneg (a b : Str) : 0 ≤ similarity a b := by
  simp only [similarity]
  split_ifs
  · exact le_refl 0
  · exact le_max_left 0 _

theorem similarity_le_one (a b : Str) : similarity a b ≤ 1 := by
  simp only [similarity]
  split_ifs
  · norm_num
  · exact max_le (by norm_num) (min_le_left 1 _)

theorem combinedScore_ge (py : Str → Str) (pn pp sub : Str) :
    similarity sub pn ≤ combinedScore py pn pp sub := by
  simp only [combinedScore]
  split_ifs <;> simp [le_max_left]

theorem combinedScore_nonneg (py : Str → Str) (pn pp sub : Str) :
    0 ≤ combinedScore py pn pp sub :=
  le_trans (similarity_nonneg sub pn) (combinedScore_ge py pn pp sub)

theorem combinedScore_le_one (py : Str → Str) (pn pp sub : Str) :
    combinedScore py pn pp sub ≤ 1 := by
  have hs0 := similarity_nonneg sub pn
  have hs1 := similarity_le_one sub pn
  have hp0 := similarity_nonneg (py sub) pp
  have hp1 := similarity_le_one (py sub) pp
  simp only [combinedScore]
  split_ifs
  · exact max_le hs1 (by linarith)
  · exact max_le hs1 (by linarith)
  · exact hs1
  · exact hs1
  · exact hs1

theorem combinedScore_eq_one (py : Str → Str) (pn pp sub : Str)
    (h : combinedScore py pn pp sub = 1) : similarity sub pn = 1 := by
  have hs1 := similarity_le_one sub pn
  have hp1 := similarity_le_one (py sub) pp
  simp only [combinedScore] at h
  split_ifs at h
  · rcases max_choice (similarity sub pn)
      (similarity (py sub) pp * 0.9 + similarity sub pn * 0.1) with hm | hm <;>
      rw [hm] at h
    · exact h
    · linarith
  · rcases max_choice (similarity sub pn)
      (similarity sub pn * 0.55 + similarity (py sub) pp * 0.45) with hm | hm <;>
      rw [hm] at h
    · exact h
    · linarith
  · exact h
  · exact h
  · exact h

theorem levenshtein_self (a : Str) : levenshtein a a = 0 := by
  induction a with
  | nil => simp [levenshtein]
  | cons x xs ih => simp [levenshtein, ih]

theorem levenshtein_eq_zero : ∀ a b : Str, levenshtein a b = 0 → a = b := by
  intro a
  induction a with
  | nil =>
    intro b h
    simp only [levenshtein] at h
    exact (List.length_eq_zero.mp h).symm
  | cons x xs ih =>
    intro b h
    cases b with
    | nil => simp [levenshtein] at h
    | cons y ys =>
      simp only [levenshtein] at h
      rcases Nat.min_eq_zero_iff.mp h with h1 | h1
      · rcases Nat.min_eq_zero_iff.mp h1 with h2 | h2 <;> omega
      · have hxy : x = y := by
          by_contra hne
          rw [if_neg hne] at h1
          omega
        have hxs : levenshtein xs ys = 0 := by
          rw [if_pos hxy] at h1
          omega
        rw [hxy, ih ys hxs]

theorem lcsLen_self (a : Str) : lcsLen a a = a.length := by
  induction a with
  | nil => simp [lcsLen]
  | cons x xs ih => simp [lcsLen, ih]

theorem lcsLen_le_aux : ∀ (n : Nat) (a b : Str), a.length + b.length ≤ n →
    lcsLen a b ≤ a.length ∧ lcsLen a b ≤ b.length := by
  intro n
  induction n with
  | zero =>
    intro a b h
    have ha : a = [] := List.length_eq_zero.mp (by omega)
    subst ha
    simp [lcsLen]
  | succ k ih =>
    intro a b h
    cases a with
    | nil => simp [lcsLen]
    | cons x xs =>
      cases b with
      | nil => simp [lcsLen]
      | cons y ys =>
        simp only [List.length_cons] at h
        simp only [lcsLen, List.length_cons]
        split_ifs
        · have := ih xs ys (by omega)
          omega
        · have h1 := ih xs (y :: ys) (by simp; omega)
          have h2 := ih (x :: xs) ys (by simp; omega)
          simp only [List.length_cons] at h1 h2
          constructor
          · exact max_le (by omega) (by omega)
          · exact max_le (by omega) (by omega)

theorem lcsLen_le (a b : Str) :
    lcsLen a b ≤ a.length ∧ lcsLen a b ≤ b.length :=
  lcsLen_le_aux (a.length + b.length) a b le_rfl

theorem bigrams_card_pos (a : Str) (h : 2 ≤ a.length) : (bigrams a).card ≠ 0 := by
  match a, h with
  | x :: y :: r, _ =>
    have hmem : (x, y) ∈ bigrams (x :: y :: r) := by
      simp [bigrams]
    exact Finset.card_ne_zero_of_mem hmem

theorem jaccardBigrams_self (a : Str) (h : 2 ≤ a.length) :
    jaccardBigrams a a = 1 := by
  have hc := bigrams_card_pos a h
  simp only [jaccardBigrams]
  rw [if_neg (by simpa using hc), Finset.inter_self]
  have hu : (bigrams a).card + (bigrams a).card - (bigrams a).card =
      (bigrams a).card := by omega
  rw [hu, if_pos (Nat.pos_of_ne_zero hc)]
  exact div_self (by exact_mod_cast hc)

theorem similarity_self (a : Str) (h : 2 ≤ a.length) : similarity a a = 1 := by
  have hne : a.length ≠ 0 := by omega
  have hq : (a.length : ℚ) ≠ 0 := by exact_mod_cast hne
  simp only [similarity, levenshtein_self, lcsLen_self, jaccardBigrams_self a h,
             max_self]
  rw [if_neg (by simpa using hne)]
  push_cast
  rw [zero_div, div_self hq]
  norm_num

theorem similarity_eq_one (a b : Str) (h : similarity a b = 1) : a = b := by
  simp only [similarity] at h
  split_ifs at h with hlen
  · norm_num at h
  · push_neg at hlen
    have hM : (1 : ℚ) ≤ max (a.length : ℚ) (b.length : ℚ) := by
      have : 1 ≤ (a.length : ℚ) := by
        have : 1 ≤ a.length := Nat.one_le_iff_ne_zero.mpr hlen.1
        exact_mod_cast this
      exact le_trans this (le_max_left _ _)
    have hM0 : (0 : ℚ) < max (a.length : ℚ) (b.length : ℚ) := by linarith
    set M := max (a.length : ℚ) (b.length : ℚ) with hMdef
    have hJ := jaccardBigrams_le_one a b
    have hC : (lcsLen a b : ℚ) / M ≤ 1 := by
      rw [div_le_one hM0]
      have h1 : lcsLen a b ≤ a.length := (lcsLen_le a b).1
      calc (lcsLen a b : ℚ) ≤ (a.length : ℚ) := by exact_mod_cast h1
        _ ≤ M := le_max_left _ _
    have hL0 : (0 : ℚ) ≤ (levenshtein a b : ℚ) / M :=
      div_nonneg (by positivity) (le_of_lt hM0)
    have he : (1 : ℚ) ≤ 0.5 * (1 - (levenshtein a b : ℚ) / M) +
        0.3 * ((lcsLen a b : ℚ) / M) + 0.2 * jaccardBigrams a b := by
      rcases max_choice 0 (min 1 (0.5 * (1 - (levenshtein a b : ℚ) / M) +
          0.3 * ((lcsLen a b : ℚ) / M) + 0.2 * jaccardBigrams a b)) with hm | hm <;>
        rw [hm] at h
      · norm_num at h
      · exact min_eq_left_iff.mp h
    have hlev : (levenshtein a b : ℚ) / M ≤ 0 := by linarith
    have hlev0 : (levenshtein a b : ℚ) = 0 := by
      have := le_antisymm hlev hL0
      rcases div_eq_zero_iff.mp this with h0 | h0
      · exact h0
      · exact absurd h0 (ne_of_gt hM0)
    exact levenshtein_eq_zero a b (by exact_mod_cast hlev0)

/-! ## Score-loop lemmas and the scoreCandidate contract (C1) -/

theorem scoreLoop_bounds (py : Str → Str) (cand pn pp : Str) :
    ∀ (l : List (Nat × Nat)) (best : ℚ), 0 ≤ best → best ≤ 1 →
      0 ≤ scoreLoop py cand pn pp l best ∧ scoreLoop py cand pn pp l best ≤ 1 := by
  intro l
  induction l with
  | nil => intro best h0 h1; exact ⟨h0, h1⟩
  | cons p rest ih =>
    intro best h0 h1
    obtain ⟨win, i⟩ := p
    simp only [scoreLoop]
    have hc0 := combinedScore_nonneg py pn pp ((cand.drop i).take win)
    have hc1 := combinedScore_le_one py pn pp ((cand.drop i).take win)
    by_cases hlt : best < combinedScore py pn pp ((cand.drop i).take win) <;>
      simp only [hlt, if_true, if_false] <;> split_ifs with hsc
    · exact ⟨hc0, hc1⟩
    · exact ih _ hc0 hc1
    · exact ⟨h0, h1⟩
    · exact ih _ h0 h1

theorem scoreLoop_eq_one (py : Str → Str) (cand pn pp : Str) :
    ∀ (l : List (Nat × Nat)) (best : ℚ), scoreLoop py cand pn pp l best = 1 →
      best = 1 ∨ ∃ p ∈ l, combinedScore py pn pp ((cand.drop p.2).take p.1) = 1 := by
  intro l
  induction l with
  | nil => intro best h; exact Or.inl h
  | cons p rest ih =>
    intro best h
    obtain ⟨win, i⟩ := p
    simp only [scoreLoop] at h
    by_cases hlt : best < combinedScore py pn pp ((cand.drop i).take win) <;>
      simp only [hlt, if_true, if_false] at h <;> split_ifs at h with hsc
    · exact Or.inr ⟨(win, i), List.mem_cons_self _ _, h⟩
    · rcases ih _ h with h1 | ⟨q, hq, hq1⟩
      · exact Or.inr ⟨(win, i), List.mem_cons_self _ _, h1⟩
      · exact Or.inr ⟨q, List.mem_cons_of_mem _ hq, hq1⟩
    · exact Or.inl h
    · rcases ih _ h with h1 | ⟨q, hq, hq1⟩
      · exact Or.inl h1
      · exact Or.inr ⟨q, List.mem_cons_of_mem _ hq, hq1⟩

theorem scoreLoop_ge (py : Str → Str) (cand pn pp : Str) :
    ∀ (l : List (Nat × Nat)) (best : ℚ),
      (0.999 ≤ best ∨
        ∃ p ∈ l, 0.999 ≤ combinedScore py pn pp ((cand.drop p.2).take p.1)) →
      0.999 ≤ scoreLoop py cand pn pp l best := by
  intro l
  induction l with
  | nil =>
    intro best h
    rcases h with h | ⟨p, hp, _⟩
    · exact h
    · exact absurd hp (List.not_mem_nil p)
  | cons p rest ih =>
    intro best h
    obtain ⟨win, i⟩ := p
    simp only [scoreLoop]
    have hbb : best ≤ (if best < combinedScore py pn pp ((cand.drop i).take win)
        then combinedScore py pn pp ((cand.drop i).take win) else best) := by
      split_ifs with hlt
      · exact le_of_lt hlt
      · exact le_rfl
    have hcb : combinedScore py pn pp ((cand.drop i).take win) ≤
        (if best < combinedScore py pn pp ((cand.drop i).take win)
        then combinedScore py pn pp ((cand.drop i).take win) else best) := by
      split_ifs with hlt
      · exact le_rfl
      · exact le_of_not_lt hlt
    by_cases hsc : (0.999 : ℚ) ≤
        (if best < combinedScore py pn pp ((cand.drop i).take win)
        then combinedScore py pn pp ((cand.drop i).take win) else best)
    · rw [if_pos hsc]
      exact hsc
    · rw [if_neg hsc]
      apply ih
      rcases h with hb | ⟨q, hq, hq1⟩
      · exact absurd (le_trans hb hbb) hsc
      · rcases List.mem_cons.mp hq with rfl | hq'
        · exact absurd (le_trans hq1 hcb) hsc
        · exact Or.inr ⟨q, hq', hq1⟩

theorem windows_mem (candLen targetLen i : Nat) (ht : 1 ≤ targetLen)
    (hi : i + targetLen ≤ candLen) : (targetLen, i) ∈ windows candLen targetLen := by
  have hmin : max 1 (targetLen - 3) ≤ targetLen := max_le ht (Nat.sub_le _ _)
  simp only [windows]
  refine List.mem_flatMap.mpr ⟨targetLen - max 1 (targetLen - 3), ?_, ?_⟩
  · exact List.mem_range.mpr (by omega)
  · refine List.mem_map.mpr ⟨i, List.mem_range.mpr (by omega), ?_⟩
    have hsum : max 1 (targetLen - 3) + (targetLen - max 1 (targetLen - 3)) =
        targetLen := by omega
    rw [hsum]

theorem scoreCandidate_ge_of_substring (py : Str → Str) (cand pn pp : Str)
    (hsub : hasSubstring cand pn) (h2 : 2 ≤ pn.length) :
    0.999 ≤ scoreCandidate py cand pn pp := by
  obtain ⟨i, hi⟩ := hsub
  have hlc := congrArg List.length hi
  simp only [List.length_take, List.length_drop] at hlc
  have hbound : i + pn.length ≤ cand.length := by omega
  have hcl : ¬ (cand.length = 0 ∨ pn.length = 0) := by omega
  simp only [scoreCandidate]
  rw [if_neg hcl]
  apply scoreLoop_ge
  refine Or.inr ⟨(pn.length, i),
    windows_mem cand.length pn.length i (by omega) hbound, ?_⟩
  show 0.999 ≤ combinedScore py pn pp ((cand.drop i).take pn.length)
  rw [hi]
  calc (0.999 : ℚ) ≤ 1 := by norm_num
    _ = similarity pn pn := (similarity_self pn h2).symm
    _ ≤ combinedScore py pn pp pn := combinedScore_ge py pn pp pn

/-- C1 (amended): `scoreCandidate` always returns a value in `[0, 1]`; it
returns exactly `1.0` only when the candidate contains the normalized phrase
as a contiguous substring; and conversely, whenever the candidate contains
the normalized phrase as a contiguous substring and the normalized phrase
has at least two characters, the returned value is at least `0.999` (the
loop's early-return bar; it is exactly `1.0` unless an earlier window
already scored `≥ 0.999`). This holds for every transliteration function
`py` supplied for the pinyin blending. -/
theorem scoreCandidate_contract (py : Str → Str) (cand pn pp : Str) :
    (0 ≤ scoreCandidate py cand pn pp ∧ scoreCandidate py cand pn pp ≤ 1) ∧
    (scoreCandidate py cand pn pp = 1 → hasSubstring cand pn) ∧
    (hasSubstring cand pn → 2 ≤ pn.length →
      0.999 ≤ scoreCandidate py cand pn pp) := by
  refine ⟨?_, ?_, ?_⟩
  · simp only [scoreCandidate]
    split_ifs
    · norm_num
    · exact scoreLoop_bounds py cand pn pp _ 0 le_rfl (by norm_num)
  · intro h
    simp only [scoreCandidate] at h
    split_ifs at h
    · norm_num at h
    · rcases scoreLoop_eq_one py cand pn pp _ 0 h with h0 | ⟨⟨win, i⟩, _, hc⟩
      · norm_num at h0
      · have hsim := combinedScore_eq_one py pn pp _ hc
        have hsub := similarity_eq_one _ _ hsim
        refine ⟨i, ?_⟩
        have hlen : pn.length ≤ win := by
          have hlc := congrArg List.length hsub
          simp only [List.length_take] at hlc
          omega
        have hstep : ((cand.drop i).take win).take pn.length =
            (cand.drop i).take pn.length := by
          rw [List.take_take, min_eq_left hlen]
        rw [← hstep, hsub, List.take_length]
  · exact fun hsub h2 => scoreCandidate_ge_of_substring py cand pn pp hsub h2

/-! ## Concrete score evaluations (C1 witness and counterexample) -/

theorem scoreCandidate_aa (py : Str → Str) :
    scoreCandidate py ['a', 'a'] ['a', 'a'] [] = 1 := by
  have hs1 : similarity ['a'] ['a', 'a'] = 2 / 5 := by
    have h1 : levenshtein ['a'] ['a', 'a'] = 1 := by simp [levenshtein]
    have h2 : lcsLen ['a'] ['a', 'a'] = 1 := by simp [lcsLen]
    have h3 : jaccardBigrams ['a'] ['a', 'a'] = 0 := by
      simp [jaccardBigrams, bigrams]
    norm_num [similarity, h1, h2, h3, max_def, min_def]
  have hs2 : similarity ['a', 'a'] ['a', 'a'] = 1 := similarity_self _ (by decide)
  have hw : windows 2 2 = [(1, 0), (1, 1), (2, 0)] := by decide
  have hcomb : ∀ sub : Str, combinedScore py ['a', 'a'] [] sub =
      similarity sub ['a', 'a'] := by
    intro sub
    simp [combinedScore]
  have hl : (['a', 'a'] : Str).length = 2 := rfl
  simp only [scoreCandidate, hl, List.length_nil]
  rw [if_neg (by norm_num), hw]
  simp only [scoreLoop, hcomb]
  rw [show ((['a', 'a'] : Str).drop 0).take 1 = ['a'] from rfl,
      show ((['a', 'a'] : Str).drop 1).take 1 = ['a'] from rfl,
      show ((['a', 'a'] : Str).drop 0).take 2 = ['a', 'a'] from rfl,
      hs1, hs2]
  norm_num

theorem scoreCandidate_x :
    scoreCandidate (computePinyinNormalized (fun l => l)) ['x'] ['x'] ['x'] =
      4 / 5 := by
  have hsim : similarity ['x'] ['x'] = 4 / 5 := by
    have h3 : jaccardBigrams ['x'] ['x'] = 0 := by simp [jaccardBigrams, bigrams]
    norm_num [similarity, levenshtein_self, lcsLen_self, h3, max_def, min_def]
  have hw : windows 1 1 = [(1, 0)] := by decide
  have hpy : computePinyinNormalized (fun l => l) ['x'] = ['x'] := by decide
  have hl : (['x'] : Str).length = 1 := rfl
  simp only [scoreCandidate, hl]
  rw [if_neg (by norm_num), hw]
  simp only [scoreLoop]
  rw [show ((['x'] : Str).drop 0).take 1 = ['x'] from rfl]
  simp only [combinedScore, hpy, hsim, hl]
  norm_num

/-- Witness for C1 (amended): the two-character phrase "aa" contained
exactly in the candidate scores at least 0.999 (with the pinyin form also
"aa"), and a score of exactly 1 — obtained with an empty phonetic form —
implies the substring relation. -/
theorem scoreCandidate_contract_witness :
    0.999 ≤ scoreCandidate (fun l => l) ['a', 'a'] ['a', 'a'] ['a', 'a'] ∧
    hasSubstring ['a', 'a'] ['a', 'a'] :=
  ⟨(scoreCandidate_contract (fun l => l) ['a', 'a'] ['a', 'a'] ['a', 'a']).2.2
      ⟨0, rfl⟩ (by decide),
   (scoreCandidate_contract (fun l => l) ['a', 'a'] ['a', 'a'] []).2.1
      (scoreCandidate_aa (fun l => l))⟩

/-- C1 counterexample: for the phrase "x" — whose normalized form "x" is
non-empty and whose pinyin per the source's non-CJK path is "x" itself —
the candidate "x" contains normalize(P) as an exact contiguous substring,
yet `scoreCandidate` returns 0.8, not 1.0: a single-character string has no
bigrams, so the bigram-Jaccard term contributes 0 even on an exact match,
and the phonetic blend cannot lift the score to 1. -/
theorem scoreCandidate_one_counterexample :
    hasSubstring ['x'] ['x'] ∧
    normalizeChinese ['x'] = ['x'] ∧
    computePinyinNormalized (fun l => l) ['x'] = ['x'] ∧
    scoreCandidate (computePinyinNormalized (fun l => l)) ['x'] ['x'] ['x'] =
      4 / 5 ∧
    (4 / 5 : ℚ) ≠ 1 :=
  ⟨⟨0, rfl⟩, by decide, by decide, scoreCandidate_x, by norm_num⟩

/-! ## Consecutive partial hits (C4) -/

theorem scoreCandidate_nil (py : Str → Str) (pn pp : Str) :
    scoreCandidate py [] pn pp = 0 := by
  simp [scoreCandidate]

theorem computeMaxScore_nil (py : Str → Str) (s : MatcherState) :
    computeMaxScore py s [] = 0 := by
  unfold computeMaxScore
  generalize s.phrasesNorm.zip s.phrasesPinyin = l
  induction l with
  | nil => rfl
  | cons p t ih =>
    simpa [scoreCandidate_nil] using ih

theorem effectiveThreshold_ge (s : MatcherState) (f : Bool) :
    0.6 ≤ effectiveThreshold s f := by
  simp only [effectiveThreshold]
  exact le_max_left _ _

theorem maxFold_le (py : Str → Str) (cand : Str) :
    ∀ (l : List (Str × Str)) (acc : ℚ),
      acc ≤ l.foldl (fun m p => if m < scoreCandidate py cand p.1 p.2
        then scoreCandidate py cand p.1 p.2 else m) acc := by
  intro l
  induction l with
  | nil => intro acc; exact le_rfl
  | cons p t ih =>
    intro acc
    simp only [List.foldl_cons]
    refine le_trans ?_ (ih _)
    split_ifs with hlt
    · exact le_of_lt hlt
    · exact le_rfl

theorem maxFold_mem (py : Str → Str) (cand : Str) :
    ∀ (l : List (Str × Str)) (acc : ℚ) (pn pp : Str), (pn, pp) ∈ l →
      scoreCandidate py cand pn pp ≤
        l.foldl (fun m p => if m < scoreCandidate py cand p.1 p.2
          then scoreCandidate py cand p.1 p.2 else m) acc := by
  intro l
  induction l with
  | nil =>
    intro acc pn pp h
    exact absurd h (List.not_mem_nil _)
  | cons p t ih =>
    intro acc pn pp h
    simp only [List.foldl_cons]
    rcases List.mem_cons.mp h with rfl | hmem
    · refine le_trans ?_ (maxFold_le py cand t _)
      split_ifs with hlt
      · exact le_rfl
      · exact le_of_not_lt hlt
    · exact ih _ pn pp hmem

theorem computeMaxScore_ge (py : Str → Str) (s : MatcherState) (cand pn pp : Str)
    (h : (pn, pp) ∈ s.phrasesNorm.zip s.phrasesPinyin) :
    scoreCandidate py cand pn pp ≤ computeMaxScore py s cand :=
  maxFold_mem py cand _ 0 pn pp h

theorem maybeWake_second_hit (py : Str → Str) (s' : MatcherState) (t2 : Str)
    (n2 : Nat) (htrig : s'.triggered = false) (hch : s'.consecutiveHits = 1)
    (hts : s'.lastTriggerTs = 0) (hp : ¬ s'.phrases = [])
    (hc2ne : ¬ takeLast maxBufferLen (s'.partialBuffer ++ normalizeChinese t2) = [])
    (h2 : effectiveThreshold s' false ≤ computeMaxScore py s'
      (takeLast maxBufferLen (s'.partialBuffer ++ normalizeChinese t2))) :
    (maybeWake py s' t2 false n2).2 = true := by
  simp only [maybeWake, hp, htrig, hts, hch, Bool.false_eq_true, if_false,
             lt_irrefl, false_and, ite_false, hc2ne, h2, if_true,
             requiredConsecutivePartialHits]
  norm_num

/-- C4: with the required consecutive-partial-hit count (2, the source's
`requiredConsecutivePartialHits`) and a freshly reset matcher (not
triggered, both counters zero, empty partial buffer, no refractory block),
a first non-final event whose maximum phrase score meets the effective
partial threshold fires no wake callback and leaves `consecutiveHits = 1`,
and a second consecutive such non-final event fires exactly one wake
callback. -/
theorem consecutive_partial_hits (py : Str → Str) (s : MatcherState)
    (t1 t2 : Str) (n1 n2 : Nat)
    (htrig : s.triggered = false) (hch : s.consecutiveHits = 0)
    (_hnm : s.nearMissHits = 0) (hbuf : s.partialBuffer = [])
    (hts : s.lastTriggerTs = 0) (hp : ¬ s.phrases = [])
    (h1 : effectiveThreshold s false ≤
      computeMaxScore py s (takeLast maxBufferLen (normalizeChinese t1)))
    (h2 : effectiveThreshold s false ≤
      computeMaxScore py s (takeLast maxBufferLen
        (takeLast maxBufferLen (normalizeChinese t1) ++ normalizeChinese t2))) :
    (maybeWake py s t1 false n1).2 = false ∧
    (maybeWake py s t1 false n1).1.consecutiveHits = 1 ∧
    (maybeWake py (maybeWake py s t1 false n1).1 t2 false n2).2 = true := by
  have hc1ne : ¬ takeLast maxBufferLen (normalizeChinese t1) = [] := by
    intro hnil
    rw [hnil, computeMaxScore_nil] at h1
    have := effectiveThreshold_ge s false
    linarith
  have hc2ne : ¬ takeLast maxBufferLen
      (takeLast maxBufferLen (normalizeChinese t1) ++ normalizeChinese t2) = [] := by
    intro hnil
    rw [hnil, computeMaxScore_nil] at h2
    have := effectiveThreshold_ge s false
    linarith
  have hstep1 : maybeWake py s t1 false n1 =
      ({ s with partialBuffer := takeLast maxBufferLen (normalizeChinese t1),
                consecutiveHits := 1, nearMissHits := 0 }, false) := by
    simp only [maybeWake, hp, htrig, hts, hch, hbuf, List.nil_append,
               Bool.false_eq_true, if_false, lt_irrefl, false_and, ite_false,
               hc1ne, h1, if_true, requiredConsecutivePartialHits]
    norm_num
  refine ⟨by rw [hstep1], by rw [hstep1], ?_⟩
  rw [hstep1]
  exact maybeWake_second_hit py _ t2 n2 htrig rfl hts hp hc2ne h2

/-- Witness for C4: the phrase "aa" and two identical qualifying partial
events "aa"; the first fires nothing, the second fires the wake callback. -/
theorem consecutive_partial_hits_witness :
    (maybeWake (fun l => l)
      ⟨[['a', 'a']], [['a', 'a']], [['a', 'a']], false, 0, 0, [], 0, 0⟩
      ['a', 'a'] false 0).2 = false ∧
    (maybeWake (fun l => l)
      (maybeWake (fun l => l)
        ⟨[['a', 'a']], [['a', 'a']], [['a', 'a']], false, 0, 0, [], 0, 0⟩
        ['a', 'a'] false 0).1 ['a', 'a'] false 10).2 = true := by
  have hn1 : takeLast maxBufferLen (normalizeChinese ['a', 'a']) = ['a', 'a'] := by
    decide
  have hn2 : takeLast maxBufferLen
      (takeLast maxBufferLen (normalizeChinese ['a', 'a']) ++
        normalizeChinese ['a', 'a']) = ['a', 'a', 'a', 'a'] := by decide
  have hthr : effectiveThreshold
      ⟨[['a', 'a']], [['a', 'a']], [['a', 'a']], false, 0, 0, [], 0, 0⟩ false =
      0.72 := by
    norm_num [effectiveThreshold, partialThreshold, max_def, min_def]
  have hmem : ((['a', 'a'], ['a', 'a']) : Str × Str) ∈
      (⟨[['a', 'a']], [['a', 'a']], [['a', 'a']], false, 0, 0, [], 0, 0⟩ :
        MatcherState).phrasesNorm.zip
        (⟨[['a', 'a']], [['a', 'a']], [['a', 'a']], false, 0, 0, [], 0, 0⟩ :
          MatcherState).phrasesPinyin := by decide
  have hsc1 : (0.999 : ℚ) ≤
      scoreCandidate (fun l => l) ['a', 'a'] ['a', 'a'] ['a', 'a'] :=
    scoreCandidate_ge_of_substring _ _ _ _ ⟨0, rfl⟩ (by decide)
  have hsc2 : (0.999 : ℚ) ≤
      scoreCandidate (fun l => l) ['a', 'a', 'a', 'a'] ['a', 'a'] ['a', 'a'] :=
    scoreCandidate_ge_of_substring _ _ _ _ ⟨0, rfl⟩ (by decide)
  have hq1 : effectiveThreshold
      ⟨[['a', 'a']], [['a', 'a']], [['a', 'a']], false, 0, 0, [], 0, 0⟩ false ≤
      computeMaxScore (fun l => l)
        ⟨[['a', 'a']], [['a', 'a']], [['a', 'a']], false, 0, 0, [], 0, 0⟩
        (takeLast maxBufferLen (normalizeChinese ['a', 'a'])) := by
    rw [hn1, hthr]
    calc (0.72 : ℚ) ≤ 0.999 := by norm_num
      _ ≤ scoreCandidate (fun l => l) ['a', 'a'] ['a', 'a'] ['a', 'a'] := hsc1
      _ ≤ _ := computeMaxScore_ge (fun l => l) _ ['a', 'a'] _ _ hmem
  have hq2 : effectiveThreshold
      ⟨[['a', 'a']], [['a', 'a']], [['a', 'a']], false, 0, 0, [], 0, 0⟩ false ≤
      computeMaxScore (fun l => l)
        ⟨[['a', 'a']], [['a', 'a']], [['a', 'a']], false, 0, 0, [], 0, 0⟩
        (takeLast maxBufferLen
          (takeLast maxBufferLen (normalizeChinese ['a', 'a']) ++
            normalizeChinese ['a', 'a'])) := by
    rw [hn2, hthr]
    calc (0.72 : ℚ) ≤ 0.999 := by norm_num
      _ ≤ scoreCandidate (fun l => l) ['a', 'a', 'a', 'a'] ['a', 'a'] ['a', 'a'] :=
        hsc2
      _ ≤ _ := computeMaxScore_ge (fun l => l) _ ['a', 'a', 'a', 'a'] _ _ hmem
  have hres := consecutive_partial_hits (fun l => l)
    ⟨[['a', 'a']], [['a', 'a']], [['a', 'a']], false, 0, 0, [], 0, 0⟩
    ['a', 'a'] ['a', 'a'] 0 10 rfl rfl rfl rfl rfl (by decide) hq1 hq2
  exact ⟨hres.1, hres.2.2⟩

end VoiceSDK
